import Mathlib

/-!
Verification of the virtual-memory core (`src/kernel/vm.cc`): a shallow
embedding of `vmnode`, `vma` and `vmap` together with theorems about the
properties stated in the specification.

Modelling conventions.
* Machine integers (`u64`, `uptr`) are modelled as `Nat`; all address
  arithmetic in the verified operations stays far below `2^64` (the code
  itself rejects faults at or above `USERTOP`), so wrap-around never occurs
  on the modelled paths.
* Physical pages are values of `PPage`: an identity (the physical address
  handed out by the allocator, used by `v2p`) and the byte contents.
  The physical allocator `kalloc`/`kfree` is the free list `List PPage`
  threaded through every operation; `kalloc` pops the head (the popped
  page's `data` is the arbitrary garbage a real `kalloc` returns).
* The code is verified in its sequential (single-core) semantics: every
  `cmpxch` succeeds, the transitional `PTE_LOCK` bit is never set by a
  concurrent core, and an object unlinked from the index is destructed at
  the next quiescent point (so a `replace` is immediately followed by the
  replaced entry's destructor effects).  Spin-on-lock loops are modelled by
  fueled recursion that consumes fuel without changing state.
* `panic`/failed `assert` is a distinct terminal outcome of an operation.
* External collaborators (declared in headers that are not part of this
  repository) are modelled from their interfaces: `readi` reads a byte
  range of a file (`Inode := List Nat`), failing on a short read; the
  interval index `crange` exposes exactly the overlap queries `vm.cc`
  relies on; page-table entries are a record of the named bits
  (present/user/writable/COW/lock) plus the physical address.
-/

namespace VmSpec

/-- `PGSIZE` from `mmu.h`: 4096-byte pages. -/
def PGSIZE : Nat := 4096

/-- `NELEM(page)`: the fixed capacity of `vmnode::page` (128 slots in `vm.hh`). -/
def NPG_MAX : Nat := 128

/-- `USERTOP`: ceiling of user-addressable virtual memory. -/
def USERTOP : Nat := 0x800000000000

/-- `FEC_WR`: the write bit of the page-fault error code. -/
def FEC_WR : Nat := 2

/-- A physical page: its physical address (`id`, what `v2p` returns) and its
byte contents. -/
structure PPage where
  id : Nat
  data : List Nat
deriving DecidableEq

/-- The free list of the physical allocator; `kalloc` pops the head. -/
abbrev FreeList := List PPage

/-- A backing file, as the byte-content interface of an inode. -/
abbrev Inode := List Nat

/-- `enum vmntype { EAGER, ONDEMAND }`. -/
inductive Vmntype where
  | EAGER
  | ONDEMAND
deriving DecidableEq

/-- `enum vmatype { PRIVATE, COW }`. -/
inductive Vmatype where
  | PRIVATE
  | COW
deriving DecidableEq

/-- The state of one `vmnode`: page count, reference count, load type,
optional backing file with offset and byte size, and the page slots
(`page[i]` is `none` when the slot holds a null pointer). -/
structure VmnodeData where
  npages : Nat
  ref : Nat
  ntype : Vmntype
  ip : Option Inode
  offset : Nat
  sz : Nat
  page : List (Option PPage)
deriving DecidableEq

instance : Inhabited VmnodeData :=
  ⟨⟨0, 0, Vmntype.ONDEMAND, none, 0, 0, []⟩⟩

/-- `memset(p, 0, PGSIZE)`: the contents of a freshly zeroed page. -/
def zeroData : List Nat := List.replicate PGSIZE 0

/-- `readi(ip, p, off, n)` collaborator: read `n` bytes of the file at
offset `off`; a read past the end is a short read, which `vm.cc` treats as
failure, so it is `none` here.  Reading through a null inode pointer is a
failure as well. -/
def readi (ip : Option Inode) (off n : Nat) : Option (List Nat) :=
  match ip with
  | none => none
  | some f => if off + n ≤ f.length then some ((f.drop off).take n) else none

/-- Writing `src` at the start of a page's byte contents (the effect of
`readi` filling the first `src.length` bytes of the buffer `p`). -/
def writeBytes (dst src : List Nat) : List Nat :=
  src ++ dst.drop src.length

/-- One pass of `vmnode::allocpg` over the slot list: a populated slot is
skipped; an empty slot takes the next free page, zeroes it (`memset`) and
installs it (the `cmpxch` install always succeeds sequentially); if the
allocator is exhausted at an empty slot the loop returns failure
immediately, leaving that slot and all later slots as they were. -/
def allocpgGo : List (Option PPage) → FreeList → (Bool × List (Option PPage) × FreeList)
  | [], alloc => (true, [], alloc)
  | some p :: rest, alloc =>
    let r := allocpgGo rest alloc
    (r.1, some p :: r.2.1, r.2.2)
  | none :: rest, [] => (false, none :: rest, [])
  | none :: rest, p :: ps =>
    let r := allocpgGo rest ps
    (r.1, some { p with data := zeroData } :: r.2.1, r.2.2)

/-- `vmnode::allocpg`: populate every empty page slot with a freshly zeroed
physical page; `false` means `-1` (allocator exhausted, object left
half-filled). -/
def allocpg (nd : VmnodeData) (alloc : FreeList) : Bool × VmnodeData × FreeList :=
  let r := allocpgGo nd.page alloc
  (r.1, { nd with page := r.2.1 }, r.2.2)

/-- Number of chunks of the `demand_load` loop `for (i = 0; i < sz; i += PGSIZE)`. -/
def numChunks (sz : Nat) : Nat := (sz + PGSIZE - 1) / PGSIZE

/-- The `demand_load` loop, processing `rem` remaining chunks starting at
page index `k`: chunk `k` reads `n = min PGSIZE (sz - k*PGSIZE)` file bytes
at `offset + k*PGSIZE` into the start of page `k`.  A short read — or a
missing page, which in C would be a write through a null pointer — fails
the whole load. -/
def dlGo (ip : Option Inode) (offset sz : Nat) :
    Nat → Nat → List (Option PPage) → Option (List (Option PPage))
  | 0, _, pages => some pages
  | rem + 1, k, pages =>
    let i := k * PGSIZE
    let n := if sz - i < PGSIZE then sz - i else PGSIZE
    match pages.getD k none with
    | none => none
    | some p =>
      match readi ip (offset + i) n with
      | none => none
      | some bytes =>
        dlGo ip offset sz rem (k + 1)
          (pages.set k (some { p with data := writeBytes p.data bytes }))

/-- `vmnode::demand_load`: read the backing-file range `[offset, offset+sz)`
into the already-allocated pages, page-sized chunk by chunk. -/
def demand_load (nd : VmnodeData) : Option VmnodeData :=
  (dlGo nd.ip nd.offset nd.sz (numChunks nd.sz) 0 nd.page).map
    (fun pgs => { nd with page := pgs })

/-- Outcome of the `vmnode` constructor: `panics` covers both the
`npg > NELEM(page)` panic and the two `assert`s of the `EAGER` branch. -/
inductive CtorOut where
  | panics
  | ok (nd : VmnodeData) (alloc : FreeList)
deriving DecidableEq

/-- `vmnode::vmnode(npg, ntype, ip, offset, sz)`: build the node with `npg`
empty slots and reference count 0; when the type is `EAGER` *and* an inode
was supplied, allocate every page and demand-load synchronously before
returning (each step is under `assert`, so its failure is a panic). -/
def vmnodeNew (npg : Nat) (ntype : Vmntype) (ip : Option Inode) (off sz : Nat)
    (alloc : FreeList) : CtorOut :=
  if NPG_MAX < npg then .panics
  else
    let nd : VmnodeData := ⟨npg, 0, ntype, ip, off, sz, List.replicate npg none⟩
    if ntype = .EAGER ∧ ip.isSome then
      match allocpg nd alloc with
      | (false, _, _) => .panics
      | (true, nd1, alloc1) =>
        match demand_load nd1 with
        | none => .panics
        | some nd2 => .ok nd2 alloc1
    else .ok nd alloc

/-- Outcome of `vmnode::copy`: `fail` is the null return (allocator
exhausted while filling the duplicate; the partial duplicate is deleted, so
its pages go back to the free list). -/
inductive CopyOut where
  | panics
  | fail (alloc : FreeList)
  | ok (c : VmnodeData) (alloc : FreeList)
deriving DecidableEq

/-- `vmnode::copy`: construct a duplicate through the `vmnode` constructor
(`EAGER` sources pass a null inode, so the constructor never eager-loads
here); if the source's first page is absent, all pages are absent and the
empty duplicate is returned at once; otherwise allocate every page of the
duplicate and `memmove` each resident source page into it byte for byte. -/
def vmnodeCopy (nd : VmnodeData) (alloc : FreeList) : CopyOut :=
  match vmnodeNew nd.npages nd.ntype
      (if nd.ntype = .ONDEMAND then nd.ip else none) nd.offset nd.sz alloc with
  | .panics => .panics
  | .ok c alloc1 =>
    if (nd.page.getD 0 none).isNone then .ok c alloc1
    else
      match allocpg c alloc1 with
      | (false, cPart, alloc2) => .fail (cPart.page.filterMap (fun x => x) ++ alloc2)
      | (true, c1, alloc2) =>
        let newPages := List.zipWith
          (fun s d =>
            match s with
            | some sp => match d with
              | some dp => some { dp with data := sp.data }
              | none => none
            | none => d)
          nd.page c1.page
        .ok { c1 with page := newPages } alloc2

/-! ## Page-table entries and address-space state -/

/-- One page-table entry, as a record of the bits `vm.cc` manipulates
(`PTE_P`, `PTE_U`, `PTE_W`, the software `PTE_COW` tag and the transitional
`PTE_LOCK` bit) together with the physical address field (`PTE_ADDR`). -/
structure Pme where
  present : Bool
  user : Bool
  write : Bool
  cow : Bool
  lock : Bool
  addr : Nat
deriving DecidableEq

/-- The all-zero entry (no translation). -/
def Pme.zero : Pme := ⟨false, false, false, false, false, 0⟩

instance : Inhabited Pme := ⟨Pme.zero⟩

/-- A hardware page table, indexed by virtual page number `va / PGSIZE`
(`walkpgdir` always reaches the entry in this model). -/
abbrev PageTable := Nat → Pme

/-- `one` `vma`: virtual range `[vma_start, vma_end)`, sharing mode and the
index of its `vmnode` in the node store. -/
structure Vma where
  vma_start : Nat
  vma_end : Nat
  va_type : Vmatype
  n : Nat
deriving DecidableEq

/-- One `vmap`'s own state: the regions held by its interval index `cr`,
and its hardware page table rooted at `pml4`. -/
structure VmapState where
  regions : List Vma
  pt : PageTable

/-- Shared machine state: the store of all live `vmnode`s (a region's `n`
field indexes it), the physical allocator free list and the number of
`tlbflush()` invocations issued so far. -/
structure Sys where
  nodes : List VmnodeData
  alloc : FreeList
  tlb : Nat

/-- The `crange` span membership test: does region `r` overlap the range
`[start, start + len)`?  This is the same double check `vmap::lookup`
performs (`e->vma_start < start+len && e->vma_end > start`). -/
def overlapsB (r : Vma) (start len : Nat) : Bool :=
  decide (r.vma_start < start + len) && decide (start < r.vma_end)

/-- `n->ref++` in the `vma` constructor. -/
def incref (sys : Sys) (i : Nat) : Sys :=
  let nd := sys.nodes.getD i default
  { sys with nodes := sys.nodes.set i { nd with ref := nd.ref + 1 } }

/-- `vmnode::decref`: drop one reference; on the last reference the node is
deleted — `~vmnode` returns every owned page to the allocator and releases
the inode — leaving a dead store slot. -/
def decref (sys : Sys) (i : Nat) : Sys :=
  let nd := sys.nodes.getD i default
  if nd.ref = 1 then
    { sys with
      nodes := sys.nodes.set i
        { nd with ref := 0, page := List.replicate nd.npages none, ip := none },
      alloc := nd.page.filterMap (fun x => x) ++ sys.alloc }
  else
    { sys with nodes := sys.nodes.set i { nd with ref := nd.ref - 1 } }

/-- `vmap::lookup(start, len)`: the region overlapping `[start, start+len)`,
if any (`cr.search` plus the overlap double-check). -/
def vmapLookup (vm : VmapState) (start len : Nat) : Option Vma :=
  vm.regions.find? (fun r => overlapsB r start len)

/-- The page-table clear loop of `insert`/`remove`/`pagefault_wcow`
(`updatepages` with `cmpxch(p, v, 0)`), over virtual page numbers
`[lo, hi)`; sequentially the `cmpxch` always succeeds. -/
def clearRange (pt : PageTable) (lo hi : Nat) : PageTable :=
  fun p => if lo ≤ p ∧ p < hi then Pme.zero else pt p

/-- The COW-downgrade loop of `vmap::copy` (`updatepages` turning every
present+user+writable entry into `PTE_ADDR(v) | PTE_P | PTE_U | PTE_COW`),
over virtual page numbers `[lo, hi)`. -/
def downgradeRange (pt : PageTable) (lo hi : Nat) : PageTable :=
  fun p =>
    if lo ≤ p ∧ p < hi then
      let v := pt p
      if v.present ∧ v.user ∧ v.write then ⟨true, true, false, true, false, v.addr⟩
      else v
    else pt p

/-- Point update of a page table. -/
def ptSet (pt : PageTable) (k : Nat) (v : Pme) : PageTable :=
  fun p => if p = k then v else pt p

/-- Outcome of `vmap::replace_vma` (the assertion that every span entry is
the replaced region itself can panic). -/
inductive RVOut where
  | panics
  | ret (ok : Bool) (sys : Sys) (vm : VmapState)

/-- `vmap::replace_vma(a, b)`: under a locked span over `a`'s range, fail
(returning `false`, nothing changed) if `a` was concurrently deleted;
assert the span holds exactly `a`; then replace `a` by `b` — at the next
quiescent point the unlinked `a` is destructed, dropping its node
reference. -/
def replace_vma (sys : Sys) (vm : VmapState) (a b : Vma) : RVOut :=
  let span := vm.regions.filter (fun r => overlapsB r a.vma_start (a.vma_end - a.vma_start))
  if a ∉ vm.regions then .ret false sys vm
  else if span.all (fun r => r = a) then
    .ret true (decref sys a.n) { vm with regions := vm.regions.replace a b }
  else .panics

/-- `vmap::insert(n, vma_start, dotlb)`: length is `n->npages * PGSIZE`; a
non-empty locked span is a mapping conflict (`-1`, nothing changed);
otherwise install a new `PRIVATE` region (its constructor takes a node
reference) and clear any stale entries of the claimed range.  Sequentially
every clearing `cmpxch` succeeds on the first try, so the `needtlb` flag —
set only after a *failed* `cmpxch` on a non-zero entry — stays `false` and
no `tlbflush` is issued. -/
def vmapInsert (sys : Sys) (vm : VmapState) (nid : Nat) (vma_start : Nat)
    (dotlb : Bool) : Int × Sys × VmapState :=
  let len := (sys.nodes.getD nid default).npages * PGSIZE
  let span := vm.regions.filter (fun r => overlapsB r vma_start len)
  if span ≠ [] then (-1, sys, vm)
  else
    let sys1 := incref sys nid
    let e : Vma := ⟨vma_start, vma_start + len, .PRIVATE, nid⟩
    let vm1 : VmapState :=
      { regions := e :: vm.regions,
        pt := clearRange vm.pt (vma_start / PGSIZE) ((vma_start + len) / PGSIZE) }
    let needtlb := false
    (0, if needtlb && dotlb then { sys1 with tlb := sys1.tlb + 1 } else sys1, vm1)

/-- `vmap::remove(vma_start, len)`: if any spanned region sticks out of
`[vma_start, vma_start+len)` report partial-unmap (`-1`, nothing changed);
otherwise drop every spanned region (their destructors release the node
references) and clear the range's entries.  As in `insert`, the sequential
`needtlb` stays `false`. -/
def vmapRemove (sys : Sys) (vm : VmapState) (vma_start len : Nat) :
    Int × Sys × VmapState :=
  let vma_end := vma_start + len
  let span := vm.regions.filter (fun r => overlapsB r vma_start len)
  if span.any (fun r => decide (r.vma_start < vma_start) || decide (vma_end < r.vma_end)) then
    (-1, sys, vm)
  else
    let sys1 := span.foldl (fun s r => decref s r.n) sys
    let vm1 : VmapState :=
      { regions := vm.regions.filter (fun r => !overlapsB r vma_start len),
        pt := clearRange vm.pt (vma_start / PGSIZE) (vma_end / PGSIZE) }
    (0, sys1, vm1)

/-! ## Page-fault resolution -/

/-- Outcome of `vmap::pagefault_wcow`. -/
inductive WcowOut where
  | panics
  | ret (code : Int) (sys : Sys) (vm : VmapState)

/-- `vmap::pagefault_wcow(m)`: duplicate `m`'s node (always, even at
reference count 1); a failed duplication is reported as `-1`; otherwise a
fresh `PRIVATE` region over the duplicate (its constructor takes the first
reference on it) replaces `m` in the index, whose destruction drops `m`'s
node reference, and every page-table entry of the old range is cleared. -/
def pagefault_wcow (sys : Sys) (vm : VmapState) (m : Vma) : WcowOut :=
  match vmnodeCopy (sys.nodes.getD m.n default) sys.alloc with
  | .panics => .panics
  | .fail alloc1 => .ret (-1) { sys with alloc := alloc1 } vm
  | .ok c alloc1 =>
    let newId := sys.nodes.length
    let sys1 : Sys := { sys with nodes := sys.nodes ++ [c], alloc := alloc1 }
    let sys2 := incref sys1 newId
    let repl : Vma := ⟨m.vma_start, m.vma_end, .PRIVATE, newId⟩
    match replace_vma sys2 vm m repl with
    | .panics => .panics
    | .ret _ sys3 vm1 =>
      .ret 0 sys3
        { vm1 with pt := clearRange vm1.pt (m.vma_start / PGSIZE) (m.vma_end / PGSIZE) }

/-- `PGROUNDDOWN`. -/
def PGROUNDDOWN (a : Nat) : Nat := (a / PGSIZE) * PGSIZE

/-- Outcome of `vmap::pagefault`: a panic, or a return code with the final
state. -/
inductive PFOut where
  | panics
  | ret (code : Int) (sys : Sys) (vm : VmapState)

/-- Page-index of the faulting address inside region `m`. -/
def faultPageIdx (m : Vma) (va : Nat) : Nat :=
  (PGROUNDDOWN va - m.vma_start) / PGSIZE

/-- The statement `if (m->n && !m->n->page[npg]) if (m->n->allocpg() < 0)
panic(...)` of `pagefault` (a region's node is always non-null on the
verified paths): ensure the faulting slot is allocated; `none` is the
panic. -/
def pfEnsureSlot (sys : Sys) (m : Vma) (npg : Nat) : Option Sys :=
  if ((sys.nodes.getD m.n default).page.getD npg none).isNone then
    match allocpg (sys.nodes.getD m.n default) sys.alloc with
    | (false, _, _) => none
    | (true, nd1, alloc1) =>
      some { sys with nodes := sys.nodes.set m.n nd1, alloc := alloc1 }
  else some sys

/-- The statement `if (m->n && m->n->type == ONDEMAND) if (m->n->demand_load()
< 0) panic(...)` of `pagefault`; `none` is the panic. -/
def pfEnsureLoad (sys : Sys) (m : Vma) : Option Sys :=
  if (sys.nodes.getD m.n default).ntype = .ONDEMAND then
    match demand_load (sys.nodes.getD m.n default) with
    | none => none
    | some nd2 => some { sys with nodes := sys.nodes.set m.n nd2 }
  else some sys

/-- The body of `vmap::pagefault` from the `retry` label on, with fuel
bounding the number of `goto retry` iterations (`none` = fuel exhausted;
with no concurrent core a locked entry would spin forever).  In order:
fast accept of a present+user+writable entry; spin on `PTE_LOCK`; region
lookup (`-1` if none); allocate the node's pages if the faulting slot is
empty (panic on exhaustion); demand-load an `ONDEMAND` node (panic on
failure); write-on-COW upgrade followed by `tlbflush` and retry; lock the
entry (sequentially the `cmpxch` succeeds) and re-validate the region
against deletion; install the translation — COW regions get a
present+user+COW entry, otherwise the node must have exactly one reference
(failed `assert` = panic) and the entry is present+user+writable. -/
def pagefaultGo : Nat → Sys → VmapState → Nat → Nat → Option PFOut
  | 0, _, _, _, _ => none
  | fuel + 1, sys, vm, va, err =>
    let ptev := vm.pt (va / PGSIZE)
    if ptev.present && ptev.user && ptev.write then some (.ret 0 sys vm)
    else if ptev.lock then pagefaultGo fuel sys vm va err
    else
      match vmapLookup vm va 1 with
      | none => some (.ret (-1) sys vm)
      | some m =>
        match pfEnsureSlot sys m (faultPageIdx m va) with
        | none => some .panics
        | some sysA =>
          match pfEnsureLoad sysA m with
          | none => some .panics
          | some sysB =>
            if m.va_type = .COW ∧ err &&& FEC_WR ≠ 0 then
              match pagefault_wcow sysB vm m with
              | .panics => some .panics
              | .ret c sysC vmC =>
                if c < 0 then some (.ret (-1) sysC vmC)
                else pagefaultGo fuel { sysC with tlb := sysC.tlb + 1 } vmC va err
            else
              if m ∈ vm.regions then
                let pa := match (sysB.nodes.getD m.n default).page.getD (faultPageIdx m va) none with
                  | some p => p.id
                  | none => 0
                if m.va_type = .COW then
                  some (.ret 1 sysB
                    { vm with pt := ptSet vm.pt (va / PGSIZE) ⟨true, true, false, true, false, pa⟩ })
                else
                  if (sysB.nodes.getD m.n default).ref = 1 then
                    some (.ret 1 sysB
                      { vm with pt := ptSet vm.pt (va / PGSIZE) ⟨true, true, true, false, false, pa⟩ })
                  else some .panics
              else pagefaultGo fuel sysB vm va err

/-- `vmap::pagefault(va, err)`: reject addresses at or above `USERTOP`,
then run the retry loop. -/
def pagefault (fuel : Nat) (sys : Sys) (vm : VmapState) (va err : Nat) : Option PFOut :=
  if USERTOP ≤ va then some (.ret (-1) sys vm) else pagefaultGo fuel sys vm va err

/-! ## Fork (`vmap::copy`) -/

/-- Outcome of `vmap::copy`: a panic (a failed span-emptiness assertion in
the destination), a null return with the cleaned-up state, or the new
address space next to the updated source. -/
inductive CopyVmapOut where
  | panics
  | fail (sys : Sys)
  | ok (sys : Sys) (parent : VmapState) (child : VmapState)

/-- The `share` branch of the `vmap::copy` loop over the source's regions,
carrying the destination's regions built so far.  For each source region
`e`: build the child's COW region over the same node (taking a reference);
if `e` itself was not COW, replace it in the source with a COW twin over
the same node (reference taken by the twin, dropped by `e`'s destruction)
and downgrade every present+user+writable entry of its range to
present+user+COW; finally the destination's span over the new region must
be empty (`assert(0)` otherwise) before it is installed. -/
def copyShareGo : Sys → VmapState → List Vma → List Vma → CopyVmapOut
  | sys, parent, childRs, [] => .ok sys parent ⟨childRs, fun _ => Pme.zero⟩
  | sys, parent, childRs, e :: rest =>
    let sys1 := incref sys e.n
    let ne : Vma := ⟨e.vma_start, e.vma_end, .COW, e.n⟩
    match
      (if e.va_type ≠ .COW then
        match replace_vma (incref sys1 e.n) parent e ⟨e.vma_start, e.vma_end, .COW, e.n⟩ with
        | .panics => none
        | .ret _ sys2 parent2 =>
          some (sys2,
            { parent2 with
              pt := downgradeRange parent2.pt (e.vma_start / PGSIZE) (e.vma_end / PGSIZE) })
      else some (sys1, parent)) with
    | none => .panics
    | some (sys2, parent2) =>
      if childRs.any (fun r => overlapsB r ne.vma_start (ne.vma_end - ne.vma_start)) then
        .panics
      else copyShareGo sys2 parent2 (childRs ++ [ne]) rest

/-- The `!share` (deep fork) branch of the `vmap::copy` loop: each source
region's node is duplicated; a failed duplication deletes the partially
built destination (each built region's destructor drops its node
reference, freeing the duplicate) and the copy returns null. -/
def copyDeepGo : Sys → VmapState → List Vma → List Vma → CopyVmapOut
  | sys, parent, childRs, [] => .ok sys parent ⟨childRs, fun _ => Pme.zero⟩
  | sys, parent, childRs, e :: rest =>
    match vmnodeCopy (sys.nodes.getD e.n default) sys.alloc with
    | .panics => .panics
    | .fail alloc1 =>
      .fail (childRs.foldl (fun s r => decref s r.n) { sys with alloc := alloc1 })
    | .ok c alloc1 =>
      let newId := sys.nodes.length
      let sys1 := incref { sys with nodes := sys.nodes ++ [c], alloc := alloc1 } newId
      let ne : Vma := ⟨e.vma_start, e.vma_end, .PRIVATE, newId⟩
      if childRs.any (fun r => overlapsB r ne.vma_start (ne.vma_end - ne.vma_start)) then
        .panics
      else copyDeepGo sys1 parent (childRs ++ [ne]) rest

/-- `vmap::copy(share)`: walk the source's regions building the destination
(the fresh destination's page table is empty); a COW fork ends with one
`tlbflush` reloading the hardware page table. -/
def vmapCopy (sys : Sys) (parent : VmapState) (share : Bool) : CopyVmapOut :=
  if share then
    match copyShareGo sys parent [] parent.regions with
    | .panics => .panics
    | .fail s => .fail s
    | .ok sys1 parent1 child => .ok { sys1 with tlb := sys1.tlb + 1 } parent1 child
  else copyDeepGo sys parent [] parent.regions

/-! ## Derived notions and projections used by the statements -/

/-- The COW twin of a region: same range, same node, `COW` mode (what both
the child region and the parent's replacement region look like after a
shared fork). -/
def cowify (e : Vma) : Vma := ⟨e.vma_start, e.vma_end, .COW, e.n⟩

/-- Number of regions of `rs` referring to node `i`. -/
def countNode (rs : List Vma) (i : Nat) : Nat :=
  (rs.filter (fun r => r.n = i)).length

/-- Boolean pairwise non-overlap of a region list (the `vmap` invariant that
live ranges do not overlap). -/
def noOverlapB (a b : Vma) : Bool :=
  !overlapsB a b.vma_start (b.vma_end - b.vma_start) &&
  !overlapsB b a.vma_start (a.vma_end - a.vma_start)

/-- Pairwise non-overlap over a whole region list. -/
def pairwiseDisjB : List Vma → Bool
  | [] => true
  | a :: l => l.all (fun b => noOverlapB a b) && pairwiseDisjB l

/-- The return code of a `pagefault` outcome (`none` for a panic or fuel
exhaustion). -/
def pfCode : Option PFOut → Option Int
  | some (.ret c _ _) => some c
  | _ => none

/-- Did `pagefault` panic? -/
def pfIsPanic : Option PFOut → Bool
  | some .panics => true
  | _ => false

/-- Page slot `i` of a successful `vmnode::copy` (`none` when the copy did
not return an object). -/
def copySlot (nd : VmnodeData) (alloc : FreeList) (i : Nat) : Option (Option PPage) :=
  match vmnodeCopy nd alloc with
  | .ok c _ => some (c.page.getD i none)
  | _ => none

/-- The page slots of a completed `vmnode` constructor run. -/
def ctorPages : CtorOut → Option (List (Option PPage))
  | .ok nd _ => some nd.page
  | .panics => none

/-- Bytes the `demand_load` loop reads for chunk `j`:
`min PGSIZE (sz - j*PGSIZE)`. -/
def chunkLen (sz j : Nat) : Nat :=
  if sz - j * PGSIZE < PGSIZE then sz - j * PGSIZE else PGSIZE

/-- The contents demand-loading leaves in page `j`: the file bytes of chunk
`j` over an otherwise zeroed page. -/
def loadedData (f : Inode) (off sz j : Nat) : List Nat :=
  writeBytes zeroData ((f.drop (off + j * PGSIZE)).take (chunkLen sz j))

/-! ## Concrete states used by witnesses and counterexamples -/

/-- A one-page node whose page is resident, held by two COW references. -/
def exNodeCow2 : VmnodeData := ⟨1, 2, .EAGER, none, 0, 0, [some ⟨11, zeroData⟩]⟩

/-- System for the write-on-COW witness: the shared node and one free page. -/
def w1sys : Sys := ⟨[exNodeCow2], [⟨12, []⟩], 0⟩

/-- The COW region whose write fault is resolved. -/
def w1m : Vma := ⟨0, 4096, .COW, 0⟩

/-- Address space holding only the COW region. -/
def w1vm : VmapState := ⟨[w1m], fun _ => Pme.zero⟩

/-- A one-page resident node with a single reference (a private mapping). -/
def exNodePriv : VmnodeData := ⟨1, 1, .EAGER, none, 0, 0, [some ⟨21, zeroData⟩]⟩

/-- System for the COW-fork witness. -/
def w2sys : Sys := ⟨[exNodePriv], [], 0⟩

/-- Parent address space for the COW-fork witness: one private region. -/
def w2vm : VmapState := ⟨[⟨0, 4096, .PRIVATE, 0⟩], fun _ => Pme.zero⟩

/-- System for the insert/remove witnesses: one empty one-page node. -/
def w3sys : Sys := ⟨[⟨1, 1, .ONDEMAND, none, 0, 0, [none]⟩], [], 0⟩

/-- Address space with a region over `[0, 4096)`. -/
def w3vm : VmapState := ⟨[⟨0, 4096, .PRIVATE, 0⟩], fun _ => Pme.zero⟩

/-- Address space with a region over `[0, 8192)` (for the partial-unmap
witness). -/
def w4vm : VmapState := ⟨[⟨0, 8192, .PRIVATE, 0⟩], fun _ => Pme.zero⟩

/-- System for the fast-accept witness: one private resident node. -/
def w5sys : Sys := ⟨[⟨1, 1, .EAGER, none, 0, 0, [some ⟨31, zeroData⟩]⟩], [], 0⟩

/-- The private region of the fast-accept witness. -/
def w5m : Vma := ⟨0, 4096, .PRIVATE, 0⟩

/-- Address space of the fast-accept witness. -/
def w5vm : VmapState := ⟨[w5m], fun _ => Pme.zero⟩

/-- State of the fast-accept witness after the first (installing) fault:
the entry for page 0 is present+user+writable. -/
def w5vm1 : VmapState :=
  ⟨w5vm.regions, ptSet w5vm.pt 0 ⟨true, true, true, false, false, 31⟩⟩

/-- System for the COW read-fault counterexample: a resident node shared by
two COW references. -/
def cx5sys : Sys := ⟨[⟨1, 2, .EAGER, none, 0, 0, [some ⟨41, zeroData⟩]⟩], [], 0⟩

/-- Address space of the counterexample: one COW region. -/
def cx5vm : VmapState := ⟨[⟨0, 4096, .COW, 0⟩], fun _ => Pme.zero⟩

/-- Its state after the first (read) fault: the entry is present+user+COW,
not writable. -/
def cx5vm1 : VmapState :=
  ⟨cx5vm.regions, ptSet cx5vm.pt 0 ⟨true, true, false, true, false, 41⟩⟩

/-- System for the exhaustion counterexample: a shared resident COW node
and an empty allocator. -/
def cx6sys : Sys := ⟨[⟨1, 2, .EAGER, none, 0, 0, [some ⟨51, zeroData⟩]⟩], [], 0⟩

/-- Its address space: one COW region. -/
def cx6vm : VmapState := ⟨[⟨0, 4096, .COW, 0⟩], fun _ => Pme.zero⟩

/-- System for the exhaustion-panic witness: a node whose page is missing
and an empty allocator. -/
def w6sys : Sys := ⟨[⟨1, 1, .ONDEMAND, none, 0, 0, [none]⟩], [], 0⟩

/-- Its address space: one private region over the empty node. -/
def w6vm : VmapState := ⟨[⟨0, 4096, .PRIVATE, 0⟩], fun _ => Pme.zero⟩

/-- A two-page node with no resident pages (for the empty-duplicate
witness). -/
def w7nd : VmnodeData := ⟨2, 1, .ONDEMAND, some [1, 2, 3], 0, 3, [none, none]⟩

/-- A free list with one page. -/
def w7alloc : FreeList := [⟨61, []⟩]

/-- A two-page node whose first page is resident and second slot is empty
(reachable: `allocpg` leaves a half-filled node on exhaustion). -/
def cx8nd : VmnodeData := ⟨2, 1, .EAGER, none, 0, 0, [some ⟨71, [9, 9, 9]⟩, none]⟩

/-- A free list with the two pages its duplication needs. -/
def cx8alloc : FreeList := [⟨72, []⟩, ⟨73, []⟩]

/-- Backing file of the eager-construction witness. -/
def w9file : Inode := [10, 20, 30]

/-- A free list with one page for the eager-construction witness. -/
def w9alloc : FreeList := [⟨81, []⟩]

/-- A one-empty-slot node for the zero-fill witness. -/
def w10nd : VmnodeData := ⟨1, 1, .ONDEMAND, none, 0, 0, [none]⟩

/-- A free list whose page carries garbage contents. -/
def w10alloc : FreeList := [⟨91, [1, 2, 3]⟩]

/-! ## Theorems -/

/-- Helper: a slot-by-slot account of `allocpg`: a slot that was empty is
afterwards either still empty (exhaustion hit it or an earlier slot) or it
holds a page whose contents were zeroed by the `memset` preceding the
install. -/
theorem allocpgGo_zeroOrEmpty : ∀ (slots : List (Option PPage)) (alloc : FreeList) (i : Nat),
    slots.getD i none = none →
    (allocpgGo slots alloc).2.1.getD i none = none ∨
      ∃ p, (allocpgGo slots alloc).2.1.getD i none = some p ∧ p.data = zeroData := by
  intro slots
  induction slots with
  | nil => intro alloc i _; left; simp [allocpgGo]
  | cons s rest ih =>
    intro alloc i h
    cases s with
    | some p =>
      cases i with
      | zero => simp [List.getD_cons_zero] at h
      | succ j =>
        simp only [List.getD_cons_succ] at h
        simpa only [allocpgGo, List.getD_cons_succ] using ih alloc j h
    | none =>
      cases alloc with
      | nil =>
        cases i with
        | zero => left; simp [allocpgGo]
        | succ j =>
          simp only [List.getD_cons_succ] at h
          left; simpa only [allocpgGo, List.getD_cons_succ] using h
      | cons q ps =>
        cases i with
        | zero =>
          right
          exact ⟨{ q with data := zeroData }, by simp [allocpgGo], rfl⟩
        | succ j =>
          simp only [List.getD_cons_succ] at h
          simpa only [allocpgGo, List.getD_cons_succ] using ih ps j h

/-- C10: every physical page that `vmnode::allocpg` installs into a
previously empty slot is fully zero-filled (`memset(p, 0, PGSIZE)` runs
before the install), so a page materialized for a never-loaded region
reads as zeros: after `allocpg`, an initially empty slot is either still
empty or holds a page whose `PGSIZE` bytes are all zero. -/
theorem allocpg_installs_zeroed (nd : VmnodeData) (alloc : FreeList) (i : Nat)
    (h : nd.page.getD i none = none) :
    (allocpg nd alloc).2.1.page.getD i none = none ∨
      ∃ p, (allocpg nd alloc).2.1.page.getD i none = some p ∧ p.data = zeroData :=
  allocpgGo_zeroOrEmpty nd.page alloc i h

/-- Witness for C10 at a concrete node: the single empty slot of `w10nd`
ends empty or zero-filled (here: zero-filled from the garbage page of
`w10alloc`). -/
theorem allocpg_installs_zeroed_witness :
    (allocpg w10nd w10alloc).2.1.page.getD 0 none = none ∨
      ∃ p, (allocpg w10nd w10alloc).2.1.page.getD 0 none = some p ∧ p.data = zeroData :=
  allocpg_installs_zeroed w10nd w10alloc 0 (by decide)

/-- C7: duplicating a node whose first page slot is empty returns
immediately: the duplicate has the same page count, no resident pages, and
the allocator free list is untouched. -/
theorem vmnodeCopy_empty_source (nd : VmnodeData) (alloc : FreeList)
    (hnp : nd.npages ≤ NPG_MAX)
    (h0 : nd.page.getD 0 none = none) :
    vmnodeCopy nd alloc =
      .ok ⟨nd.npages, 0, nd.ntype, if nd.ntype = .ONDEMAND then nd.ip else none,
           nd.offset, nd.sz, List.replicate nd.npages none⟩ alloc := by
  have hlt : ¬ NPG_MAX < nd.npages := not_lt.mpr hnp
  have h0' : nd.page[0]?.getD none = none := by
    simpa [List.getD_eq_getElem?_getD] using h0
  cases htype : nd.ntype <;>
    simp [vmnodeCopy, vmnodeNew, hlt, h0', htype]

/-- Witness for C7: the two-page node `w7nd` with both slots empty
duplicates to an empty two-page node without touching `w7alloc`. -/
theorem vmnodeCopy_empty_source_witness :
    vmnodeCopy w7nd w7alloc =
      .ok ⟨w7nd.npages, 0, w7nd.ntype, if w7nd.ntype = .ONDEMAND then w7nd.ip else none,
           w7nd.offset, w7nd.sz, List.replicate w7nd.npages none⟩ w7alloc :=
  vmnodeCopy_empty_source w7nd w7alloc (by decide) (by decide)

/-- C3: an `insert` whose target range `[vma_start, vma_start + npages*PGSIZE)`
overlaps any existing region reports a mapping conflict (`-1`) and leaves
the system and the address space — in particular its region set — exactly
unchanged. -/
theorem vmapInsert_overlap_conflict (sys : Sys) (vm : VmapState)
    (nid vma_start : Nat) (dotlb : Bool)
    (h : ∃ r ∈ vm.regions,
        overlapsB r vma_start ((sys.nodes.getD nid default).npages * PGSIZE) = true) :
    vmapInsert sys vm nid vma_start dotlb = (-1, sys, vm) := by
  obtain ⟨r, hr, ho⟩ := h
  have hne : vm.regions.filter
      (fun x => overlapsB x vma_start ((sys.nodes.getD nid default).npages * PGSIZE)) ≠ [] :=
    List.ne_nil_of_mem (List.mem_filter.mpr ⟨hr, ho⟩)
  simp only [vmapInsert]
  rw [if_pos hne]

/-- Witness for C3: inserting the one-page node at `2048` conflicts with
the region `[0, 4096)` already in `w3vm` and changes nothing. -/
theorem vmapInsert_overlap_conflict_witness :
    vmapInsert w3sys w3vm 0 2048 true = (-1, w3sys, w3vm) :=
  vmapInsert_overlap_conflict w3sys w3vm 0 2048 true (by decide)

/-- C4: a `remove(vma_start, len)` for which some overlapping region is not
fully contained in `[vma_start, vma_start + len)` reports the unsupported
partial unmap (`-1`) and leaves the system and all regions unchanged — so
`remove` succeeds only when every overlapping region is fully contained. -/
theorem vmapRemove_partial_unmap (sys : Sys) (vm : VmapState) (vma_start len : Nat)
    (h : ∃ r ∈ vm.regions, overlapsB r vma_start len = true ∧
        (r.vma_start < vma_start ∨ vma_start + len < r.vma_end)) :
    vmapRemove sys vm vma_start len = (-1, sys, vm) := by
  obtain ⟨r, hr, ho, hout⟩ := h
  have hany : (vm.regions.filter (fun x => overlapsB x vma_start len)).any
      (fun x => decide (x.vma_start < vma_start) || decide (vma_start + len < x.vma_end)) = true := by
    refine List.any_eq_true.mpr ⟨r, List.mem_filter.mpr ⟨hr, ho⟩, ?_⟩
    rcases hout with h1 | h1 <;> simp [h1]
  simp only [vmapRemove]
  rw [if_pos hany]

/-- Witness for C4: removing `[0, 4096)` from an address space whose only
region is `[0, 8192)` is a partial unmap; it fails and changes nothing. -/
theorem vmapRemove_partial_unmap_witness :
    vmapRemove w3sys w4vm 0 4096 = (-1, w3sys, w4vm) :=
  vmapRemove_partial_unmap w3sys w4vm 0 4096 (by decide)

/-- Helper: with at least as many free pages as empty slots, `allocpg`
succeeds; the result keeps the slot count, keeps every resident page, and
fills every empty slot with a zeroed page. -/
theorem allocpgGo_success : ∀ (slots : List (Option PPage)) (alloc : FreeList),
    slots.countP (fun s => s.isNone) ≤ alloc.length →
    (allocpgGo slots alloc).1 = true ∧
    (allocpgGo slots alloc).2.1.length = slots.length ∧
    (∀ i, (∀ p, slots.getD i none = some p → (allocpgGo slots alloc).2.1.getD i none = some p) ∧
      (i < slots.length → slots.getD i none = none →
        ∃ q, (allocpgGo slots alloc).2.1.getD i none = some q ∧ q.data = zeroData)) := by
  intro slots
  induction slots with
  | nil =>
    intro alloc _
    exact ⟨rfl, rfl, fun i =>
      ⟨fun p hp => by simp at hp, fun hi => absurd hi (by simp)⟩⟩
  | cons s rest ih =>
    intro alloc hle
    cases s with
    | some p =>
      have hle' : rest.countP (fun s => s.isNone) ≤ alloc.length := by
        simpa [List.countP_cons] using hle
      obtain ⟨h1, h2, h3⟩ := ih alloc hle'
      refine ⟨by simpa [allocpgGo] using h1, by simpa [allocpgGo] using h2, fun i => ?_⟩
      cases i with
      | zero =>
        refine ⟨fun q hq => ?_, fun _ h => by simp [List.getD_cons_zero] at h⟩
        simp [List.getD_cons_zero] at hq
        simp [allocpgGo, List.getD_cons_zero, hq]
      | succ j =>
        refine ⟨fun q hq => ?_, fun hj h => ?_⟩
        · have := (h3 j).1 q (by simpa [List.getD_cons_succ] using hq)
          simpa [allocpgGo, List.getD_cons_succ] using this
        · have := (h3 j).2 (by simpa using Nat.lt_of_succ_lt_succ hj)
            (by simpa [List.getD_cons_succ] using h)
          simpa [allocpgGo, List.getD_cons_succ] using this
    | none =>
      cases alloc with
      | nil => simp [List.countP_cons] at hle
      | cons q ps =>
        have hle' : rest.countP (fun s => s.isNone) ≤ ps.length := by
          simp [List.countP_cons] at hle
          omega
        obtain ⟨h1, h2, h3⟩ := ih ps hle'
        refine ⟨by simpa [allocpgGo] using h1, by simpa [allocpgGo] using h2, fun i => ?_⟩
        cases i with
        | zero =>
          refine ⟨fun r hr => by simp [List.getD_cons_zero] at hr, fun _ _ => ?_⟩
          exact ⟨{ q with data := zeroData }, by simp [allocpgGo, List.getD_cons_zero], rfl⟩
        | succ j =>
          refine ⟨fun r hr => ?_, fun hj h => ?_⟩
          · have := (h3 j).1 r (by simpa [List.getD_cons_succ] using hr)
            simpa [allocpgGo, List.getD_cons_succ] using this
          · have := (h3 j).2 (by simpa using Nat.lt_of_succ_lt_succ hj)
              (by simpa [List.getD_cons_succ] using h)
            simpa [allocpgGo, List.getD_cons_succ] using this

/-- Helper: a slot of an all-`none` replicate reads as `none`. -/
theorem getD_replicate_none (n i : Nat) :
    (List.replicate n (none : Option PPage)).getD i none = none := by
  simp only [List.getD_eq_getElem?_getD, List.getElem?_replicate]
  split <;> simp

/-- Helper: a `getD _ none` that returns `some` is in range. -/
theorem lt_length_of_getD_some {l : List (Option PPage)} {i : Nat} {p : PPage}
    (h : l.getD i none = some p) : i < l.length := by
  by_contra hge
  rw [List.getD_eq_getElem?_getD, List.getElem?_eq_none (le_of_not_lt hge)] at h
  simp at h

/-- Helper: the `vmnode` constructor as `vmnode::copy` invokes it never
eager-loads (an `EAGER` source passes a null inode), so it just builds the
empty duplicate. -/
theorem vmnodeNew_for_copy (nd : VmnodeData) (alloc : FreeList)
    (hnp : nd.npages ≤ NPG_MAX) :
    vmnodeNew nd.npages nd.ntype (if nd.ntype = .ONDEMAND then nd.ip else none)
        nd.offset nd.sz alloc =
      .ok ⟨nd.npages, 0, nd.ntype, if nd.ntype = .ONDEMAND then nd.ip else none,
           nd.offset, nd.sz, List.replicate nd.npages none⟩ alloc := by
  have hlt : ¬ NPG_MAX < nd.npages := not_lt.mpr hnp
  cases htype : nd.ntype <;> simp [vmnodeNew, hlt, htype]

/-- Counterexample to C8 as stated: duplicating a node whose first page is
resident but whose second slot is empty (a reachable state — `allocpg`
documents that it may leave a half-filled node on exhaustion) produces a
duplicate whose second slot is *resident* (a fresh zeroed page), not
absent: `vmnode::copy` runs `allocpg` on the duplicate, which populates
every slot, before copying only the resident source pages. -/
theorem vmnodeCopy_absent_slot_becomes_resident :
    (cx8nd.page.getD 0 none).isSome = true ∧
    cx8nd.page.getD 1 none = none ∧
    (copySlot cx8nd cx8alloc 1).map Option.isSome = some true := by
  refine ⟨by decide, by decide, ?_⟩
  decide

/-- C8 (amended): duplicating a node whose first page is resident yields a
duplicate of the same page count in which every resident source page is
byte-for-byte copied and every slot that is absent in the source holds a
freshly allocated zero-filled page (not an absent slot). -/
theorem vmnodeCopy_first_resident (nd : VmnodeData) (alloc : FreeList)
    (hnp : nd.npages ≤ NPG_MAX)
    (hlen : nd.page.length = nd.npages)
    (h0 : (nd.page.getD 0 none).isSome = true)
    (halloc : nd.npages ≤ alloc.length) :
    ∃ c alloc', vmnodeCopy nd alloc = .ok c alloc' ∧
      c.npages = nd.npages ∧ c.page.length = nd.npages ∧
      (∀ i sp, nd.page.getD i none = some sp →
        ∃ dp, c.page.getD i none = some dp ∧ dp.data = sp.data) ∧
      (∀ i, i < nd.npages → nd.page.getD i none = none →
        ∃ dp, c.page.getD i none = some dp ∧ dp.data = zeroData) := by
  obtain ⟨p0, hp0⟩ := Option.isSome_iff_exists.mp h0
  have hcount : (List.replicate nd.npages (none : Option PPage)).countP
      (fun s => s.isNone) = nd.npages := by
    simp [List.countP_replicate]
  obtain ⟨hs1, hs2, hs3⟩ := allocpgGo_success (List.replicate nd.npages none) alloc
    (by rw [hcount]; exact halloc)
  rcases hsc : allocpgGo (List.replicate nd.npages none) alloc with ⟨ok, slots', alloc2⟩
  rw [hsc] at hs1 hs2 hs3
  subst hs1
  simp only [List.length_replicate] at hs2
  have hcopy : vmnodeCopy nd alloc =
      .ok ⟨nd.npages, 0, nd.ntype, if nd.ntype = .ONDEMAND then nd.ip else none,
           nd.offset, nd.sz,
           List.zipWith
             (fun s d =>
               match s with
               | some sp => match d with
                 | some dp => some { dp with data := sp.data }
                 | none => none
               | none => d)
             nd.page slots'⟩ alloc2 := by
    simp only [vmnodeCopy, vmnodeNew_for_copy nd alloc hnp, allocpg, hsc, hp0,
      Option.isSome_some, Option.isNone_some, Bool.false_eq_true, if_false]
  refine ⟨_, _, hcopy, rfl, ?_, ?_, ?_⟩
  · simp [List.length_zipWith, hlen, hs2]
  · intro i sp hsp
    have hi1 : i < nd.page.length := lt_length_of_getD_some hsp
    have hi : i < nd.npages := hlen ▸ hi1
    have hi2 : i < slots'.length := hs2 ▸ hi
    obtain ⟨q, hq, hqd⟩ := (hs3 i).2 (by simpa using hi) (getD_replicate_none _ _)
    have hq' : slots'[i] = some q := by
      rw [List.getD_eq_getElem slots' none hi2] at hq; exact hq
    have hsp' : nd.page[i] = some sp := by
      rw [List.getD_eq_getElem nd.page none hi1] at hsp; exact hsp
    refine ⟨{ q with data := sp.data }, ?_, rfl⟩
    have hiz : i < (List.zipWith
        (fun s d =>
          match s with
          | some sp => match d with
            | some dp => some { dp with data := sp.data }
            | none => none
          | none => d)
        nd.page slots').length := by
      simp [List.length_zipWith]; omega
    rw [show (⟨nd.npages, 0, nd.ntype, if nd.ntype = .ONDEMAND then nd.ip else none,
        nd.offset, nd.sz, List.zipWith _ nd.page slots'⟩ : VmnodeData).page =
        List.zipWith _ nd.page slots' from rfl]
    rw [List.getD_eq_getElem _ none hiz, List.getElem_zipWith, hsp', hq']
  · intro i hi hnone
    have hi1 : i < nd.page.length := hlen ▸ hi
    have hi2 : i < slots'.length := hs2 ▸ hi
    obtain ⟨q, hq, hqd⟩ := (hs3 i).2 (by simpa using hi) (getD_replicate_none _ _)
    have hq' : slots'[i] = some q := by
      rw [List.getD_eq_getElem slots' none hi2] at hq; exact hq
    have hnone' : nd.page[i] = none := by
      rw [List.getD_eq_getElem nd.page none hi1] at hnone; exact hnone
    refine ⟨q, ?_, hqd⟩
    have hiz : i < (List.zipWith
        (fun s d =>
          match s with
          | some sp => match d with
            | some dp => some { dp with data := sp.data }
            | none => none
          | none => d)
        nd.page slots').length := by
      simp [List.length_zipWith]; omega
    rw [show (⟨nd.npages, 0, nd.ntype, if nd.ntype = .ONDEMAND then nd.ip else none,
        nd.offset, nd.sz, List.zipWith _ nd.page slots'⟩ : VmnodeData).page =
        List.zipWith _ nd.page slots' from rfl]
    rw [List.getD_eq_getElem _ none hiz, List.getElem_zipWith, hnone', hq']

/-- Witness for the amended C8 at the mixed node `cx8nd`: its duplication
succeeds with the stated slot contents. -/
theorem vmnodeCopy_first_resident_witness :
    ∃ c alloc', vmnodeCopy cx8nd cx8alloc = .ok c alloc' ∧
      c.npages = cx8nd.npages ∧ c.page.length = cx8nd.npages ∧
      (∀ i sp, cx8nd.page.getD i none = some sp →
        ∃ dp, c.page.getD i none = some dp ∧ dp.data = sp.data) ∧
      (∀ i, i < cx8nd.npages → cx8nd.page.getD i none = none →
        ∃ dp, c.page.getD i none = some dp ∧ dp.data = zeroData) :=
  vmnodeCopy_first_resident cx8nd cx8alloc (by decide) (by decide) (by decide) (by decide)

/-- Helper: `getD` after `set` at a different index. -/
theorem getD_set_ne {α : Type} (l : List α) (k j : Nat) (x d : α)
    (h : k ≠ j) : (l.set k x).getD j d = l.getD j d := by
  simp [List.getD_eq_getElem?_getD, List.getElem?_set_ne h]

/-- Helper: `getD` after `set` at the same (in-range) index. -/
theorem getD_set_self {α : Type} (l : List α) (k : Nat) (x d : α)
    (h : k < l.length) : (l.set k x).getD k d = x := by
  rw [List.getD_eq_getElem?_getD, List.getElem?_set_self']
  simp [List.getElem?_eq_getElem h]

/-- Helper: `getD` on an append, inside the left part. -/
theorem getD_append_left {α : Type} (l : List α) (c : α) (i : Nat) (d : α)
    (h : i < l.length) : (l ++ [c]).getD i d = l.getD i d := by
  rw [List.getD_eq_getElem?_getD, List.getD_eq_getElem?_getD,
    List.getElem?_append, if_pos h]

/-- Helper: `getD` on an append, at the old length. -/
theorem getD_append_length {α : Type} (l : List α) (c : α) (d : α) :
    (l ++ [c]).getD l.length d = c := by
  rw [List.getD_eq_getElem?_getD, List.getElem?_append_right (le_refl l.length)]
  simp

/-- Helper: `set` on an append, at the old length. -/
theorem set_append_length {α : Type} (l : List α) (c x : α) :
    (l ++ [c]).set l.length x = l ++ [x] := by
  induction l with
  | nil => rfl
  | cons a t ih => simp [List.set, ih]

/-- Helper: the `demand_load` loop, started at chunk `k` with `rem` chunks
to go over zero-filled resident pages, succeeds and leaves chunk `j`
holding the file bytes of chunk `j` over zeros, touching no other slot. -/
theorem dlGo_loads (f : Inode) (off sz : Nat) :
    ∀ (rem k : Nat) (pages : List (Option PPage)),
    (∀ j, k ≤ j → j < k + rem → ∃ p, pages.getD j none = some p ∧ p.data = zeroData) →
    (∀ j, k ≤ j → j < k + rem → j * PGSIZE < sz) →
    off + sz ≤ f.length →
    ∃ pages', dlGo (some f) off sz rem k pages = some pages' ∧
      pages'.length = pages.length ∧
      (∀ j, (j < k ∨ k + rem ≤ j) → pages'.getD j none = pages.getD j none) ∧
      (∀ j, k ≤ j → j < k + rem →
        ∃ p, pages'.getD j none = some p ∧ p.data = loadedData f off sz j) := by
  intro rem
  induction rem with
  | zero =>
    intro k pages _ _ _
    exact ⟨pages, rfl, rfl, fun j _ => rfl, fun j hj1 hj2 => absurd hj2 (by omega)⟩
  | succ rem ih =>
    intro k pages hres hk hfile
    obtain ⟨p, hp, hpd⟩ := hres k (le_refl k) (by omega)
    have hklen : k < pages.length := lt_length_of_getD_some hp
    have hkl : k * PGSIZE < sz := hk k (le_refl k) (by omega)
    have hn : k * PGSIZE + chunkLen sz k ≤ sz := by
      simp only [chunkLen]; split <;> omega
    have hreadi : readi (some f) (off + k * PGSIZE)
        (if sz - k * PGSIZE < PGSIZE then sz - k * PGSIZE else PGSIZE) =
        some ((f.drop (off + k * PGSIZE)).take (chunkLen sz k)) := by
      simp only [readi, chunkLen]
      rw [if_pos (by simp only [chunkLen] at hn; omega)]
    obtain ⟨pages', h1, h2, h3, h4⟩ := ih (k + 1)
      (pages.set k (some { p with
        data := writeBytes p.data ((f.drop (off + k * PGSIZE)).take (chunkLen sz k)) }))
      (fun j hj1 hj2 => by
        rw [getD_set_ne _ _ _ _ _ (by omega)]
        exact hres j (by omega) (by omega))
      (fun j hj1 hj2 => hk j (by omega) (by omega))
      hfile
    refine ⟨pages', ?_, ?_, ?_, ?_⟩
    · simp only [dlGo, hp, hreadi]
      exact h1
    · rw [h2, List.length_set]
    · intro j hj
      rw [h3 j (by omega), getD_set_ne _ _ _ _ _ (by omega)]
    · intro j hj1 hj2
      rcases Nat.eq_or_lt_of_le hj1 with hjk | hjk
      · refine ⟨{ p with
          data := writeBytes p.data ((f.drop (off + k * PGSIZE)).take (chunkLen sz k)) },
          ?_, ?_⟩
        · rw [← hjk, h3 k (Or.inl (by omega)), getD_set_self _ _ _ _ hklen]
        · rw [← hjk]
          simp only [loadedData, hpd]
      · exact h4 j (by omega) (by omega)

/-- Counterexample to C9 as stated: a node constructed with the `EAGER`
load policy but a null inode pointer performs neither allocation nor load —
the constructor guard is `type == EAGER && ip` — so its single page slot is
still empty when the constructor returns. -/
theorem vmnodeNew_eager_no_inode_unallocated :
    ctorPages (vmnodeNew 1 .EAGER none 0 0 []) = some [none] := by decide

/-- C9 (amended to nodes that carry a backing file, as the constructor
guard requires): constructing an `EAGER` node over inode `f` allocates all
`npg` pages and synchronously loads the file contents before returning:
every slot is resident, and every chunk of the `sz`-byte span holds its
file bytes over an otherwise zeroed page. -/
theorem vmnodeNew_eager_loads (npg : Nat) (f : Inode) (off sz : Nat) (alloc : FreeList)
    (hnp : npg ≤ NPG_MAX)
    (halloc : npg ≤ alloc.length)
    (hsz : sz ≤ npg * PGSIZE)
    (hfile : off + sz ≤ f.length) :
    ∃ nd alloc', vmnodeNew npg .EAGER (some f) off sz alloc = .ok nd alloc' ∧
      nd.npages = npg ∧ nd.page.length = npg ∧
      (∀ i, i < npg → (nd.page.getD i none).isSome = true) ∧
      (∀ j, j < numChunks sz →
        ∃ p, nd.page.getD j none = some p ∧ p.data = loadedData f off sz j) := by
  have hchunks : numChunks sz ≤ npg := by
    simp only [numChunks, PGSIZE] at *; omega
  obtain ⟨hs1, hs2, hs3⟩ := allocpgGo_success (List.replicate npg none) alloc
    (by simpa [List.countP_replicate] using halloc)
  rcases hsc : allocpgGo (List.replicate npg none) alloc with ⟨ok, slots', alloc2⟩
  rw [hsc] at hs1 hs2 hs3
  subst hs1
  simp only [List.length_replicate] at hs2
  have hresid : ∀ i, i < npg → ∃ q, slots'.getD i none = some q ∧ q.data = zeroData :=
    fun i hi => (hs3 i).2 (by simpa using hi) (getD_replicate_none _ _)
  obtain ⟨pages', h1, h2, h3, h4⟩ := dlGo_loads f off sz (numChunks sz) 0 slots'
    (fun j _ hj2 => hresid j (by omega))
    (fun j _ hj2 => by
      simp only [numChunks, PGSIZE] at hj2 ⊢; omega)
    hfile
  have hnew : vmnodeNew npg .EAGER (some f) off sz alloc =
      .ok ⟨npg, 0, .EAGER, some f, off, sz, pages'⟩ alloc2 := by
    simp only [vmnodeNew, if_neg (not_lt.mpr hnp)]
    rw [if_pos (⟨trivial, rfl⟩ : True ∧ (some f).isSome = true)]
    simp only [allocpg, hsc]
    simp only [demand_load, numChunks]
    simp only [numChunks] at h1
    rw [h1]
    rfl
  refine ⟨_, _, hnew, rfl, ?_, ?_, ?_⟩
  · show pages'.length = npg
    rw [h2]; exact hs2
  · intro i hi
    show (pages'.getD i none).isSome = true
    rcases Nat.lt_or_ge i (numChunks sz) with hic | hic
    · obtain ⟨p, hp, _⟩ := h4 i (by omega) (by omega)
      rw [hp]; rfl
    · rw [h3 i (Or.inr (by omega))]
      obtain ⟨q, hq, _⟩ := hresid i hi
      rw [hq]; rfl
  · intro j hj
    exact h4 j (by omega) (by omega)

/-- Witness for the amended C9: an `EAGER` one-page node over the 3-byte
file `w9file` comes out of the constructor fully allocated and loaded. -/
theorem vmnodeNew_eager_loads_witness :
    ∃ nd alloc', vmnodeNew 1 .EAGER (some w9file) 0 3 w9alloc = .ok nd alloc' ∧
      nd.npages = 1 ∧ nd.page.length = 1 ∧
      (∀ i, i < 1 → (nd.page.getD i none).isSome = true) ∧
      (∀ j, j < numChunks 3 →
        ∃ p, nd.page.getD j none = some p ∧ p.data = loadedData w9file 0 3 j) :=
  vmnodeNew_eager_loads 1 w9file 0 3 w9alloc (by decide) (by decide)
    (by decide) (by decide)

/-- Helper: with fewer free pages than empty slots, `allocpg` fails. -/
theorem allocpgGo_fail : ∀ (slots : List (Option PPage)) (alloc : FreeList),
    alloc.length < slots.countP (fun s => s.isNone) →
    (allocpgGo slots alloc).1 = false := by
  intro slots
  induction slots with
  | nil => intro alloc h; simp at h
  | cons s rest ih =>
    intro alloc h
    cases s with
    | some p =>
      have := ih alloc (by simpa [List.countP_cons] using h)
      simpa [allocpgGo] using this
    | none =>
      cases alloc with
      | nil => simp [allocpgGo]
      | cons q ps =>
        have := ih ps (by simp [List.countP_cons] at h ⊢; omega)
        simpa [allocpgGo] using this

/-- Counterexample to C6 as stated: allocator exhaustion hit *during the
write-upgrade duplication* of a COW write fault is not fatal — the failed
`vmnode::copy` makes `pagefault_wcow` return `-1` (vm.cc:368-371), which
`pagefault` passes on to the faulting context (vm.cc:430-431) instead of
halting.  Concretely: a write fault (`err = FEC_WR`) on the COW region of
`cx6vm` with an empty allocator returns `-1` and does not panic. -/
theorem pagefault_wcow_exhaustion_returns_error :
    pfCode (pagefault 2 cx6sys cx6vm 0 2) = some (-1) ∧
    pfIsPanic (pagefault 2 cx6sys cx6vm 0 2) = false :=
  ⟨by decide, by decide⟩

/-- C6 (amended to the two paths that really are under `panic`): if the
faulting page's slot is unallocated and the allocator cannot fill the
node's empty slots, fault resolution panics (`"pagefault: couldn't
allocate pages"`) instead of returning an error to the faulting context. -/
theorem pagefault_alloc_exhaustion_panics (fuel : Nat) (sys : Sys) (vm : VmapState)
    (va err : Nat) (m : Vma)
    (hva : va < USERTOP)
    (hfast : ((vm.pt (va / PGSIZE)).present && (vm.pt (va / PGSIZE)).user &&
      (vm.pt (va / PGSIZE)).write) = false)
    (hlock : (vm.pt (va / PGSIZE)).lock = false)
    (hlook : vmapLookup vm va 1 = some m)
    (hslot : (sys.nodes.getD m.n default).page.getD (faultPageIdx m va) none = none)
    (hex : sys.alloc.length < (sys.nodes.getD m.n default).page.countP (fun s => s.isNone)) :
    pagefault (fuel + 1) sys vm va err = some .panics := by
  have hfail : (allocpgGo (sys.nodes.getD m.n default).page sys.alloc).1 = false :=
    allocpgGo_fail _ _ hex
  rcases hgo : allocpgGo (sys.nodes.getD m.n default).page sys.alloc with ⟨ok, slots', alloc'⟩
  rw [hgo] at hfail
  subst hfail
  unfold pagefault
  rw [if_neg (not_le.mpr hva)]
  simp only [pagefaultGo, pfEnsureSlot, hfast, hlock, hlook, hslot, allocpg, hgo]
  simp

/-- Witness for the amended C6: a fault on `w6vm`, whose node has an empty
slot while the allocator is empty, panics. -/
theorem pagefault_alloc_exhaustion_panics_witness :
    pagefault 1 w6sys w6vm 0 0 = some PFOut.panics :=
  pagefault_alloc_exhaustion_panics 0 w6sys w6vm 0 0 ⟨0, 4096, .PRIVATE, 0⟩
    (by decide) (by decide) (by decide) (by decide) (by decide) (by decide)

/-- Helper: when fault resolution over a covering `PRIVATE` region reports
a fresh install (`return 1`), the final page table holds a
present+user+writable entry at the faulting page. -/
theorem pagefaultGo_private_installs_writable :
    ∀ (fuel : Nat) (sys : Sys) (vm : VmapState) (va err : Nat) (m : Vma)
      (sys1 : Sys) (vm1 : VmapState),
    vmapLookup vm va 1 = some m →
    m.va_type = .PRIVATE →
    pagefaultGo fuel sys vm va err = some (.ret 1 sys1 vm1) →
    (vm1.pt (va / PGSIZE)).present = true ∧ (vm1.pt (va / PGSIZE)).user = true ∧
      (vm1.pt (va / PGSIZE)).write = true := by
  intro fuel
  induction fuel with
  | zero => intro sys vm va err m sys1 vm1 _ _ h; simp [pagefaultGo] at h
  | succ fuel ih =>
    intro sys vm va err m sys1 vm1 hlook hpriv h
    rw [pagefaultGo] at h
    by_cases hfast : ((vm.pt (va / PGSIZE)).present && (vm.pt (va / PGSIZE)).user &&
        (vm.pt (va / PGSIZE)).write) = true
    · rw [if_pos hfast] at h
      simp at h
    · rw [if_neg hfast] at h
      by_cases hlk : (vm.pt (va / PGSIZE)).lock = true
      · rw [if_pos hlk] at h
        exact ih sys vm va err m sys1 vm1 hlook hpriv h
      · rw [if_neg hlk] at h
        simp only [hlook] at h
        rcases hA : pfEnsureSlot sys m (faultPageIdx m va) with _ | sysA
        · simp only [hA] at h
          simp at h
        · simp only [hA] at h
          rcases hB : pfEnsureLoad sysA m with _ | sysB
          · simp only [hB] at h
            simp at h
          · simp only [hB] at h
            rw [if_neg (by simp [hpriv])] at h
            rw [if_pos (List.mem_of_find?_eq_some hlook)] at h
            rw [if_neg (by simp [hpriv])] at h
            by_cases hr : (sysB.nodes.getD m.n default).ref = 1
            · rw [if_pos hr] at h
              simp only [Option.some.injEq, PFOut.ret.injEq] at h
              obtain ⟨-, -, hv⟩ := h
              rw [← hv]
              simp [ptSet]
            · rw [if_neg hr] at h
              simp at h

/-- C5 (amended to addresses covered by a `PRIVATE` region — a COW region
re-installs a present+user+COW entry through the slow path instead): once
resolving a fault at such an address has installed its translation
(`return 1`), resolving the same fault again — with no intervening unmap —
takes the fast-accept path: it returns success (`0`) immediately with the
system and address space completely unchanged, so no page is allocated and
no TLB invalidation is issued. -/
theorem pagefault_private_refault_fast_accepts (fuel : Nat) (sys : Sys) (vm : VmapState)
    (va err : Nat) (m : Vma) (sys1 : Sys) (vm1 : VmapState) (fuel2 err2 : Nat)
    (hlook : vmapLookup vm va 1 = some m)
    (hpriv : m.va_type = .PRIVATE)
    (hrun : pagefault fuel sys vm va err = some (.ret 1 sys1 vm1)) :
    pagefault (fuel2 + 1) sys1 vm1 va err2 = some (.ret 0 sys1 vm1) := by
  have hva : ¬ USERTOP ≤ va := by
    intro hge
    rw [pagefault, if_pos hge] at hrun
    simp only [Option.some.injEq, PFOut.ret.injEq] at hrun
    omega
  rw [pagefault, if_neg hva] at hrun
  obtain ⟨h1, h2, h3⟩ := pagefaultGo_private_installs_writable fuel sys vm va err m
    sys1 vm1 hlook hpriv hrun
  rw [pagefault, if_neg hva, pagefaultGo, if_pos (by rw [h1, h2, h3]; rfl)]

/-- Witness for the amended C5: the first fault on the private region of
`w5vm` installs a writable entry (first equation, the state after is
`w5vm1`), and the immediate re-fault fast-accepts with nothing changed. -/
theorem pagefault_private_refault_fast_accepts_witness :
    pagefault 1 w5sys w5vm1 0 0 = some (.ret 0 w5sys w5vm1) :=
  pagefault_private_refault_fast_accepts 1 w5sys w5vm 0 0 w5m w5sys w5vm1 0 0
    (by decide) (by decide) (by rfl)

/-- Counterexample to C5 as stated: for an address mapped by a *COW*
region, the second identical non-writing fault is not taken on the
fast-accept path — the installed entry is present+user+COW, not writable,
so resolution runs the full path again and reports a fresh install
(`return 1`, second equation) instead of the fast accept (`return 0`). -/
theorem pagefault_cow_refault_not_fast_accept :
    pagefault 2 cx5sys cx5vm 0 0 = some (.ret 1 cx5sys cx5vm1) ∧
    pfCode (pagefault 2 cx5sys cx5vm1 0 0) = some 1 ∧
    pfCode (pagefault 2 cx5sys cx5vm1 0 0) ≠ some 0 :=
  ⟨by rfl, by decide, by decide⟩

/-- Helper: with a well-formed node and enough free pages, `vmnode::copy`
succeeds and the duplicate starts with reference count 0 (nobody points at
it until a region is built over it). -/
theorem vmnodeCopy_ok_ref_zero (nd : VmnodeData) (alloc : FreeList)
    (hnp : nd.npages ≤ NPG_MAX) (halloc : nd.npages ≤ alloc.length) :
    ∃ c alloc', vmnodeCopy nd alloc = .ok c alloc' ∧ c.ref = 0 := by
  cases h0 : nd.page.getD 0 none with
  | none =>
    have h0' : nd.page[0]?.getD none = none := by
      simpa [List.getD_eq_getElem?_getD] using h0
    refine ⟨⟨nd.npages, 0, nd.ntype, if nd.ntype = .ONDEMAND then nd.ip else none,
      nd.offset, nd.sz, List.replicate nd.npages none⟩, alloc, ?_, rfl⟩
    have hlt : ¬ NPG_MAX < nd.npages := not_lt.mpr hnp
    cases htype : nd.ntype <;> simp [vmnodeCopy, vmnodeNew, hlt, h0', htype]
  | some p0 =>
    obtain ⟨hs1, _, _⟩ := allocpgGo_success (List.replicate nd.npages none) alloc
      (by simpa [List.countP_replicate] using halloc)
    rcases hsc : allocpgGo (List.replicate nd.npages none) alloc with ⟨ok, slots', alloc2⟩
    rw [hsc] at hs1
    subst hs1
    refine ⟨⟨nd.npages, 0, nd.ntype, if nd.ntype = .ONDEMAND then nd.ip else none,
      nd.offset, nd.sz,
      List.zipWith
        (fun s d =>
          match s with
          | some sp => match d with
            | some dp => some { dp with data := sp.data }
            | none => none
          | none => d)
        nd.page slots'⟩, alloc2, ?_, rfl⟩
    simp only [vmnodeCopy, vmnodeNew_for_copy nd alloc hnp, allocpg, hsc, h0,
      Option.isSome_some, Option.isNone_some, Bool.false_eq_true, if_false]

/-- C1: resolving a write fault on a COW region `m` (the `pagefault_wcow`
step that `pagefault` runs when `m->va_type == COW && (err & FEC_WR)`)
succeeds and, post-resolution: the address space holds, in `m`'s place, a
`PRIVATE` region over a freshly appended duplicate node whose reference
count is exactly 1; the old node keeps its pages byte-for-byte (so the
sibling region of any other address space still referring to it — the
reason `ref ≥ 2` — reads exactly the same bytes, only the reference count
dropped by the replaced region's destruction); and every other node is
untouched. -/
theorem pagefault_wcow_private_fresh (sys : Sys) (vm : VmapState) (m : Vma)
    (hmem : m ∈ vm.regions)
    (hspan : ∀ r ∈ vm.regions,
      overlapsB r m.vma_start (m.vma_end - m.vma_start) = true → r = m)
    (hcow : m.va_type = .COW)
    (hid : m.n < sys.nodes.length)
    (hnp : (sys.nodes.getD m.n default).npages ≤ NPG_MAX)
    (halloc : (sys.nodes.getD m.n default).npages ≤ sys.alloc.length)
    (href : 2 ≤ (sys.nodes.getD m.n default).ref) :
    ∃ sys' vm', pagefault_wcow sys vm m = .ret 0 sys' vm' ∧
      vm'.regions = vm.regions.replace m ⟨m.vma_start, m.vma_end, .PRIVATE, sys.nodes.length⟩ ∧
      sys'.nodes.length = sys.nodes.length + 1 ∧
      (sys'.nodes.getD sys.nodes.length default).ref = 1 ∧
      (sys'.nodes.getD m.n default).page = (sys.nodes.getD m.n default).page ∧
      (sys'.nodes.getD m.n default).ref = (sys.nodes.getD m.n default).ref - 1 ∧
      (∀ i, i < sys.nodes.length → i ≠ m.n →
        sys'.nodes.getD i default = sys.nodes.getD i default) := by
  obtain ⟨c, alloc', hcopy, hcref⟩ :=
    vmnodeCopy_ok_ref_zero (sys.nodes.getD m.n default) sys.alloc hnp halloc
  have hlen1 : m.n < (sys.nodes ++ [c]).length := by
    simp; omega
  have hincref : incref { sys with nodes := sys.nodes ++ [c], alloc := alloc' }
      (sys.nodes.length) =
      { sys with nodes := sys.nodes ++ [{ c with ref := 1 }], alloc := alloc' } := by
    simp only [incref, getD_append_length, set_append_length, hcref]
  have hget2 : (sys.nodes ++ [{ c with ref := 1 }]).getD m.n default =
      sys.nodes.getD m.n default :=
    getD_append_left _ _ _ _ hid
  have hall : (vm.regions.filter
      (fun r => overlapsB r m.vma_start (m.vma_end - m.vma_start))).all
      (fun r => r = m) = true := by
    refine List.all_eq_true.mpr fun r hr => ?_
    have := List.mem_filter.mp hr
    simp only [decide_eq_true_eq]
    exact hspan r this.1 this.2
  have hrepl : replace_vma { sys with nodes := sys.nodes ++ [{ c with ref := 1 }], alloc := alloc' }
      vm m ⟨m.vma_start, m.vma_end, .PRIVATE, sys.nodes.length⟩ =
      .ret true
        (decref { sys with nodes := sys.nodes ++ [{ c with ref := 1 }], alloc := alloc' } m.n)
        { vm with regions := vm.regions.replace m ⟨m.vma_start, m.vma_end, .PRIVATE, sys.nodes.length⟩ } := by
    rw [replace_vma, if_neg (fun hno => hno hmem), if_pos hall]
  have hdecref : decref { sys with nodes := sys.nodes ++ [{ c with ref := 1 }], alloc := alloc' } m.n =
      { sys with
        nodes := (sys.nodes ++ [{ c with ref := 1 }]).set m.n
          { sys.nodes.getD m.n default with ref := (sys.nodes.getD m.n default).ref - 1 },
        alloc := alloc' } := by
    rw [decref]
    simp only [hget2]
    rw [if_neg (by omega)]
  refine ⟨{ sys with
      nodes := (sys.nodes ++ [{ c with ref := 1 }]).set m.n
        { sys.nodes.getD m.n default with ref := (sys.nodes.getD m.n default).ref - 1 },
      alloc := alloc' },
    { vm with
      regions := vm.regions.replace m ⟨m.vma_start, m.vma_end, .PRIVATE, sys.nodes.length⟩,
      pt := clearRange vm.pt (m.vma_start / PGSIZE) (m.vma_end / PGSIZE) },
    ?_, rfl, ?_, ?_, ?_, ?_, ?_⟩
  · rw [pagefault_wcow]
    simp only [hcopy, hincref, hrepl, hdecref]
  · simp [List.length_set]
  · show (((sys.nodes ++ [{ c with ref := 1 }]).set m.n
        { sys.nodes.getD m.n default with
          ref := (sys.nodes.getD m.n default).ref - 1 }).getD sys.nodes.length default).ref = 1
    rw [getD_set_ne _ _ _ _ _ (by omega), getD_append_length]
  · show (((sys.nodes ++ [{ c with ref := 1 }]).set m.n
        { sys.nodes.getD m.n default with
          ref := (sys.nodes.getD m.n default).ref - 1 }).getD m.n default).page =
      (sys.nodes.getD m.n default).page
    rw [getD_set_self _ _ _ _ (by simpa using hlen1)]
  · show (((sys.nodes ++ [{ c with ref := 1 }]).set m.n
        { sys.nodes.getD m.n default with
          ref := (sys.nodes.getD m.n default).ref - 1 }).getD m.n default).ref =
      (sys.nodes.getD m.n default).ref - 1
    rw [getD_set_self _ _ _ _ (by simpa using hlen1)]
  · intro i hi hne
    show ((sys.nodes ++ [{ c with ref := 1 }]).set m.n
        { sys.nodes.getD m.n default with
          ref := (sys.nodes.getD m.n default).ref - 1 }).getD i default =
      sys.nodes.getD i default
    rw [getD_set_ne _ _ _ _ _ (fun hc => hne hc.symm), getD_append_left _ _ _ _ hi]

/-- Witness for C1: resolving the write fault on the COW region `w1m` of
`w1vm` (its node shared with a sibling, `ref = 2`) yields the stated
private fresh-duplicate state. -/
theorem pagefault_wcow_private_fresh_witness :
    ∃ sys' vm', pagefault_wcow w1sys w1vm w1m = .ret 0 sys' vm' ∧
      vm'.regions = w1vm.regions.replace w1m ⟨w1m.vma_start, w1m.vma_end, .PRIVATE, w1sys.nodes.length⟩ ∧
      sys'.nodes.length = w1sys.nodes.length + 1 ∧
      (sys'.nodes.getD w1sys.nodes.length default).ref = 1 ∧
      (sys'.nodes.getD w1m.n default).page = (w1sys.nodes.getD w1m.n default).page ∧
      (sys'.nodes.getD w1m.n default).ref = (w1sys.nodes.getD w1m.n default).ref - 1 ∧
      (∀ i, i < w1sys.nodes.length → i ≠ w1m.n →
        sys'.nodes.getD i default = w1sys.nodes.getD i default) :=
  pagefault_wcow_private_fresh w1sys w1vm w1m (by decide) (by decide) (by decide)
    (by decide) (by decide) (by decide) (by decide)

/-- Helper: `cowify` keeps the range, so overlap tests do not see it. -/
theorem overlapsB_cowify (r : Vma) (s l : Nat) :
    overlapsB (cowify r) s l = overlapsB r s l := rfl

/-- Helper: a region already in COW mode is its own COW twin. -/
theorem cowify_of_cow {e : Vma} (h : e.va_type = .COW) : cowify e = e := by
  cases e with
  | mk a b t n =>
    simp only [Vma.va_type] at h
    subst h
    rfl

/-- Helper: counting referring regions through a `cons`. -/
theorem countNode_cons (e : Vma) (l : List Vma) (i : Nat) :
    countNode (e :: l) i = countNode l i + (if e.n = i then 1 else 0) := by
  by_cases h : e.n = i <;> simp [countNode, List.filter_cons, h]

/-- Helper: counting referring regions is blind to `cowify`. -/
theorem countNode_map_cowify (l : List Vma) (i : Nat) :
    countNode (l.map cowify) i = countNode l i := by
  induction l with
  | nil => rfl
  | cons a l ih =>
    rw [List.map_cons, countNode_cons, countNode_cons, ih]
    rfl

/-- Helper: `List.replace` at the first position of the element, when the
prefix does not contain it. -/
theorem replace_append_not_mem : ∀ (A B : List Vma) (e x : Vma), e ∉ A →
    (A ++ e :: B).replace e x = A ++ x :: B := by
  intro A
  induction A with
  | nil =>
    intro B e x _
    simp [List.replace_cons]
  | cons a A ih =>
    intro B e x hmem
    have hne : (e == a) = false :=
      beq_eq_false_iff_ne.mpr (fun h => hmem (by simp [h]))
    simp only [List.cons_append, List.replace_cons, hne]
    rw [ih B e x (fun h => hmem (List.mem_cons_of_mem a h))]

/-- Helper: splitting the pairwise non-overlap of a `cons`. -/
theorem pairwiseDisjB_cons {e : Vma} {l : List Vma}
    (h : pairwiseDisjB (e :: l) = true) :
    (∀ b ∈ l, noOverlapB e b = true) ∧ pairwiseDisjB l = true := by
  simp only [pairwiseDisjB, Bool.and_eq_true, List.all_eq_true] at h
  exact h

/-- Helper: the net node-store effect of the non-COW arm of a shared-fork
step — the child's region constructor, the replacement region's
constructor and the replaced region's destructor — is a single reference
increment. -/
theorem cowStep_sys (sys : Sys) (j : Nat) (hj : j < sys.nodes.length) :
    decref (incref (incref sys j) j) j = incref sys j := by
  have h1 : (incref sys j).nodes.getD j default =
      { sys.nodes.getD j default with ref := (sys.nodes.getD j default).ref + 1 } := by
    simp only [incref]
    exact getD_set_self _ _ _ _ hj
  have h2 : incref (incref sys j) j =
      { sys with nodes := sys.nodes.set j { sys.nodes.getD j default with ref := (sys.nodes.getD j default).ref + 1 + 1 } } := by
    simp only [incref]
    rw [getD_set_self]
    · simp [List.set_set]
    · simpa using hj
  rw [h2]
  simp only [decref]
  rw [getD_set_self _ _ _ _ (by simpa using hj)]
  rw [if_neg (show ¬ ((sys.nodes.getD j default).ref + 1 + 1 = 1) by omega)]
  simp [incref, List.set_set]

/-- Helper: `incref` keeps the store size, the allocator and the TLB
counter. -/
theorem incref_length (sys : Sys) (j : Nat) :
    (incref sys j).nodes.length = sys.nodes.length := by
  simp [incref]

/-- Helper: reference counts after `incref`. -/
theorem incref_getD (sys : Sys) (j i : Nat) (hj : j < sys.nodes.length) :
    ((incref sys j).nodes.getD i default).ref =
      (sys.nodes.getD i default).ref + (if j = i then 1 else 0) := by
  by_cases h : j = i
  · subst h
    simp only [incref, if_pos rfl]
    rw [getD_set_self _ _ _ _ hj]
    simp
  · simp only [incref, if_neg h]
    rw [getD_set_ne _ _ _ _ _ h]
    simp

/-- Helper: the walk of `vmap::copy(share=true)` over the remaining source
regions `rest`, the processed prefix `pre` already COW-ified in the parent
and mirrored in the accumulated child regions.  It succeeds; afterwards
parent and child both carry the COW twins of all source regions; the node
store size, the allocator and the TLB counter are untouched; and every
node gained exactly one reference per remaining region that refers to
it. -/
theorem copyShareGo_spec : ∀ (rest : List Vma) (sys : Sys) (parent : VmapState) (pre : List Vma),
    parent.regions = pre.map cowify ++ rest →
    (∀ a ∈ pre, ∀ b ∈ rest, noOverlapB a b = true) →
    pairwiseDisjB rest = true →
    (∀ r ∈ rest, r.n < sys.nodes.length) →
    ∃ sys' parent1 child,
      copyShareGo sys parent (pre.map cowify) rest = .ok sys' parent1 child ∧
      parent1.regions = (pre ++ rest).map cowify ∧
      child.regions = (pre ++ rest).map cowify ∧
      sys'.nodes.length = sys.nodes.length ∧
      sys'.alloc = sys.alloc ∧
      sys'.tlb = sys.tlb ∧
      (∀ i, i < sys.nodes.length →
        (sys'.nodes.getD i default).ref = (sys.nodes.getD i default).ref + countNode rest i) := by
  intro rest
  induction rest with
  | nil =>
    intro sys parent pre hpar _ _ _
    refine ⟨sys, parent, ⟨pre.map cowify, fun _ => Pme.zero⟩, rfl,
      by simpa using hpar, by simp, rfl, rfl, rfl, fun i _ => by simp [countNode]⟩
  | cons e rest ih =>
    intro sys parent pre hpar hdisj hdisjR hval
    obtain ⟨hheadDisj, hdisjR'⟩ := pairwiseDisjB_cons hdisjR
    have hvalE : e.n < sys.nodes.length := hval e (List.mem_cons_self e rest)
    have hany : ((pre.map cowify).any
        (fun r => overlapsB r e.vma_start (e.vma_end - e.vma_start))) = false := by
      rw [List.any_eq_false]
      intro r hr
      obtain ⟨a, ha, rfl⟩ := List.mem_map.mp hr
      have hno := hdisj a ha e (List.mem_cons_self e rest)
      simp only [noOverlapB, Bool.and_eq_true, Bool.not_eq_true'] at hno
      rw [overlapsB_cowify]
      simp [hno.1]
    have hmap : (pre ++ [e]).map cowify =
        pre.map cowify ++ [(⟨e.vma_start, e.vma_end, .COW, e.n⟩ : Vma)] := by
      simp [cowify]
    have hsteps : ∃ parentMid : VmapState,
        copyShareGo sys parent (pre.map cowify) (e :: rest) =
          copyShareGo (incref sys e.n) parentMid
            (pre.map cowify ++ [(⟨e.vma_start, e.vma_end, .COW, e.n⟩ : Vma)]) rest ∧
        parentMid.regions = pre.map cowify ++ (⟨e.vma_start, e.vma_end, .COW, e.n⟩ : Vma) :: rest := by
      by_cases hvt : e.va_type = .COW
      · refine ⟨parent, ?_, ?_⟩
        · simp only [copyShareGo]
          rw [if_neg (fun hc => hc hvt)]
          simp only [hany, Bool.false_eq_true, if_false]
        · have hce : (⟨e.vma_start, e.vma_end, .COW, e.n⟩ : Vma) = e := cowify_of_cow hvt
          rw [hpar, hce]
      · have hmem : e ∈ parent.regions := by
          rw [hpar]
          exact List.mem_append_right _ (List.mem_cons_self e rest)
        have hnotpre : e ∉ pre.map cowify := by
          intro hin
          obtain ⟨a, _, hae⟩ := List.mem_map.mp hin
          exact hvt (by rw [← hae]; rfl)
        have hall : ((parent.regions.filter
            (fun r => overlapsB r e.vma_start (e.vma_end - e.vma_start))).all
            (fun r => r = e)) = true := by
          rw [List.all_eq_true]
          intro r hr
          obtain ⟨hrmem, hrov⟩ := List.mem_filter.mp hr
          rw [hpar] at hrmem
          simp only [decide_eq_true_eq]
          rcases List.mem_append.mp hrmem with hl | hrr
          · obtain ⟨a, ha, rfl⟩ := List.mem_map.mp hl
            have hno := hdisj a ha e (List.mem_cons_self e rest)
            simp only [noOverlapB, Bool.and_eq_true, Bool.not_eq_true'] at hno
            rw [overlapsB_cowify, hno.1] at hrov
            simp at hrov
          · rcases List.mem_cons.mp hrr with h | h
            · exact h
            · have hno := hheadDisj r h
              simp only [noOverlapB, Bool.and_eq_true, Bool.not_eq_true'] at hno
              rw [hno.2] at hrov
              simp at hrov
        have hrv : replace_vma (incref (incref sys e.n) e.n) parent e
            (⟨e.vma_start, e.vma_end, .COW, e.n⟩ : Vma) =
            .ret true (incref sys e.n)
              { parent with regions := pre.map cowify ++ (⟨e.vma_start, e.vma_end, .COW, e.n⟩ : Vma) :: rest } := by
          simp only [replace_vma]
          rw [if_neg (fun hno => hno hmem), if_pos hall]
          rw [cowStep_sys sys e.n hvalE, hpar, replace_append_not_mem _ _ _ _ hnotpre]
        refine ⟨{ parent with regions := pre.map cowify ++ (⟨e.vma_start, e.vma_end, .COW, e.n⟩ : Vma) :: rest, pt := downgradeRange parent.pt (e.vma_start / PGSIZE) (e.vma_end / PGSIZE) }, ?_, rfl⟩
        simp only [copyShareGo]
        rw [if_pos hvt]
        simp only [hrv, hany, Bool.false_eq_true, if_false]
    obtain ⟨parentMid, hstep, hpmid⟩ := hsteps
    obtain ⟨sys', parent1, child, hrun', hp1, hc1, hlen', halloc', htlb', hrefs'⟩ :=
      ih (incref sys e.n) parentMid (pre ++ [e])
        (by rw [hpmid, hmap, List.append_assoc]; rfl)
        (by
          intro a ha b hb
          rcases List.mem_append.mp ha with h | h
          · exact hdisj a h b (List.mem_cons_of_mem e hb)
          · rw [List.mem_singleton.mp h]
            exact hheadDisj b hb)
        hdisjR'
        (fun r hr => by rw [incref_length]; exact hval r (List.mem_cons_of_mem e hr))
    rw [hmap] at hrun'
    refine ⟨sys', parent1, child, hstep.trans hrun', ?_, ?_, ?_, ?_, ?_, ?_⟩
    · rw [hp1]; simp
    · rw [hc1]; simp
    · rw [hlen', incref_length]
    · rw [halloc']; rfl
    · rw [htlb']; rfl
    · intro i hi
      have h1 := hrefs' i (by rw [incref_length]; exact hi)
      rw [h1, incref_getD sys e.n i hvalE, countNode_cons]
      omega

/-- C2: after a successful COW fork (`vmap::copy` with `share = true`),
for every source region the parent and the child each hold its COW twin —
a region with mode COW over the *same* BackingObject — and, given the
entry invariant that each node's reference count equals the number of
parent regions referring to it, after the fork each such object's
reference count equals the number of regions referring to it across the
two address spaces. -/
theorem vmapCopy_share_cow_fork (sys : Sys) (parent : VmapState)
    (hnov : pairwiseDisjB parent.regions = true)
    (hval : ∀ r ∈ parent.regions, r.n < sys.nodes.length)
    (href : ∀ r ∈ parent.regions,
      (sys.nodes.getD r.n default).ref = countNode parent.regions r.n) :
    ∃ sys' parent' child,
      vmapCopy sys parent true = .ok sys' parent' child ∧
      parent'.regions = parent.regions.map cowify ∧
      child.regions = parent.regions.map cowify ∧
      (∀ e ∈ parent.regions,
        cowify e ∈ parent'.regions ∧ cowify e ∈ child.regions ∧
        (cowify e).va_type = .COW ∧ (cowify e).n = e.n ∧
        (sys'.nodes.getD e.n default).ref =
          countNode parent'.regions e.n + countNode child.regions e.n) := by
  obtain ⟨sys1, parent1, child, hrun, hp1, hc1, hlen, halloc, htlb, hrefs⟩ :=
    copyShareGo_spec parent.regions sys parent [] (by simp) (by simp) hnov hval
  simp only [List.map_nil] at hrun
  simp only [List.nil_append] at hp1 hc1
  refine ⟨{ sys1 with tlb := sys1.tlb + 1 }, parent1, child, ?_, hp1, hc1, ?_⟩
  · rw [vmapCopy, if_pos rfl]
    simp only [hrun]
  · intro e he
    have hcnt1 : countNode parent1.regions e.n = countNode parent.regions e.n := by
      rw [hp1, countNode_map_cowify]
    have hcnt2 : countNode child.regions e.n = countNode parent.regions e.n := by
      rw [hc1, countNode_map_cowify]
    refine ⟨?_, ?_, rfl, rfl, ?_⟩
    · rw [hp1]
      exact List.mem_map_of_mem cowify he
    · rw [hc1]
      exact List.mem_map_of_mem cowify he
    · show (sys1.nodes.getD e.n default).ref = _
      rw [hrefs e.n (hval e he), href e he, hcnt1, hcnt2]

/-- Witness for C2: forking `w2vm` (one private region over node 0 with
`ref = 1`) with `share = true` yields the stated COW parent/child pair. -/
theorem vmapCopy_share_cow_fork_witness :
    ∃ sys' parent' child,
      vmapCopy w2sys w2vm true = .ok sys' parent' child ∧
      parent'.regions = w2vm.regions.map cowify ∧
      child.regions = w2vm.regions.map cowify ∧
      (∀ e ∈ w2vm.regions,
        cowify e ∈ parent'.regions ∧ cowify e ∈ child.regions ∧
        (cowify e).va_type = .COW ∧ (cowify e).n = e.n ∧
        (sys'.nodes.getD e.n default).ref =
          countNode parent'.regions e.n + countNode child.regions e.n) :=
  vmapCopy_share_cow_fork w2sys w2vm (by decide) (by decide) (by decide)

end VmSpec
